import Mathlib

/-!
# Verification of the excel-helper spreadsheet chunking engine

Shallow embedding of `src/excel.rs` (the core spreadsheet chunking engine):
cell-reference parsing, merge-range extraction, chunk planning, merge
remapping, and the split orchestrator.  Strings manipulated character by
character by the source are modelled as `List Char`; machine integers
(`usize`, `u16`, `u32`) are modelled as `Nat`, with the `u16::try_from`
bound made explicit as a `≤ 65535` check.  File-system and zip/XML I/O
collaborators (`calamine`, `zip`, `quick_xml`, `rust_xlsxwriter`) are
abstracted at their call boundary: the worksheet grid arrives as a list of
rows of normalized text, a zip archive is a list of named entries whose XML
content is pre-tokenized into the stream of start/empty elements (the only
events the source's scanners inspect), and a written workbook is the grid
of cells in write order plus its applied merges.
-/

namespace ExcelHelper

/-- A merged-cell region in source-sheet coordinates, zero-based inclusive
(mirrors `struct MergeRange` in `excel.rs`). -/
structure MergeRange where
  start_row : Nat
  end_row : Nat
  start_col : Nat
  end_col : Nat
deriving DecidableEq

/-- A merge translated into one chunk's coordinate space plus the cached
anchor text (mirrors `struct ChunkMerge`; the `u32`/`u16` fields are `Nat`,
the `u16` bound having been checked before construction). -/
structure ChunkMerge where
  start_row : Nat
  end_row : Nat
  start_col : Nat
  end_col : Nat
  value : String
deriving DecidableEq

/-- Metadata for a single output file (mirrors `struct SplitChunk`;
the `PathBuf` is modelled as the file name string). -/
structure SplitChunk where
  file_path : String
  total_rows : Nat
  data_rows : Nat
deriving DecidableEq

/-- Result summary of a split (mirrors `struct SplitResult`). -/
structure SplitResult where
  total_rows : Nat
  header_rows : Nat
  chunks : List SplitChunk
deriving DecidableEq

/-- The observable effect of one `write_chunk` call: the worksheet grid in
write order (header rows first, then data rows) and the merges applied to
it.  Models the output file produced through `rust_xlsxwriter`. -/
structure WrittenFile where
  path : String
  cells : List (List String)
  merges : List ChunkMerge
deriving DecidableEq

/- ### Cell-reference parsing (`parse_cell_ref`, `column_label_to_index`) -/

/-- Rust `char::is_ascii_alphabetic`. -/
def is_ascii_alphabetic (c : Char) : Bool :=
  decide ((65 ≤ c.toNat ∧ c.toNat ≤ 90) ∨ (97 ≤ c.toNat ∧ c.toNat ≤ 122))

/-- Rust `char::is_ascii_digit`. -/
def is_ascii_digit (c : Char) : Bool :=
  decide (48 ≤ c.toNat ∧ c.toNat ≤ 57)

/-- Rust `char::to_ascii_uppercase`: map `a`-`z` to `A`-`Z`, leave every
other character unchanged.  (Identical to core `Char.toUpper`, restated
here so the embedding is self-contained.) -/
def to_ascii_uppercase (c : Char) : Char :=
  if 97 ≤ c.toNat ∧ c.toNat ≤ 122 then Char.ofNat (c.toNat - 32) else c

/-- Rust `char::to_ascii_lowercase`: map `A`-`Z` to `a`-`z`. -/
def to_ascii_lowercase (c : Char) : Char :=
  if 65 ≤ c.toNat ∧ c.toNat ≤ 90 then Char.ofNat (c.toNat + 32) else c

/-- The accumulator loop of `column_label_to_index`: per character, reject
non-ASCII-alphabetic input, otherwise fold `value * 26 + (upper - 'A') + 1`.
The `as u8` cast of the uppercased character is the `% 256`; the
`checked_sub(b'A')` is the `< 65` guard (`usize` overflow of
`checked_mul`/`+` cannot occur for `Nat`). -/
def column_label_loop : List Char → Nat → Option Nat
  | [], value => some value
  | c :: cs, value =>
    if ¬ is_ascii_alphabetic c then none
    else
      let u := (to_ascii_uppercase c).toNat % 256
      if u < 65 then none
      else column_label_loop cs (value * 26 + (u - 65) + 1)

/-- `column_label_to_index`: bijective base-26 decoding of a column label,
then `checked_sub(1)` to make it zero-based. -/
def column_label_to_index (label : List Char) : Option Nat :=
  match column_label_loop label 0 with
  | none => none
  | some value => if value = 0 then none else some (value - 1)

/-- Base-10 value of a digit string (Rust `str::parse::<usize>` on an
all-digit string; `usize` overflow is not modelled for `Nat`). -/
def digits_to_nat (row_part : List Char) : Nat :=
  row_part.foldl (fun acc c => acc * 10 + (c.toNat - 48)) 0

/-- The character loop of `parse_cell_ref`: ASCII letters are accumulated
into the column part unless a digit has already been seen (then the whole
parse fails); ASCII digits are accumulated into the row part; every other
character is skipped. -/
def parse_cell_loop : List Char → List Char → List Char →
    Option (List Char × List Char)
  | [], col_part, row_part => some (col_part, row_part)
  | c :: cs, col_part, row_part =>
    if is_ascii_alphabetic c then
      if row_part ≠ [] then none
      else parse_cell_loop cs (col_part ++ [c]) row_part
    else if is_ascii_digit c then parse_cell_loop cs col_part (row_part ++ [c])
    else parse_cell_loop cs col_part row_part

/-- `parse_cell_ref`: decode one endpoint such as `B2` into a zero-based
`(row, col)` pair. -/
def parse_cell_ref (cell : List Char) : Option (Nat × Nat) :=
  if cell = [] then none
  else
    match parse_cell_loop cell [] [] with
    | none => none
    | some (col_part, row_part) =>
      if col_part = [] ∨ row_part = [] then none
      else
        match column_label_to_index col_part with
        | none => none
        | some col =>
          let row := digits_to_nat row_part
          if row = 0 then none else some (row - 1, col)

/-- Rust `str::trim`, with core `Char.isWhitespace` standing in for the
Unicode `White_Space` class (identical on the ASCII whitespace the
container format can produce). -/
def trim_chars (s : List Char) : List Char :=
  ((s.dropWhile Char.isWhitespace).reverse.dropWhile Char.isWhitespace).reverse

/-- `parse_range_ref`: split a range reference on `:` (a single endpoint is
doubled), parse both endpoints, normalize so start ≤ end on each axis. -/
def parse_range_ref (range : List Char) : Option MergeRange :=
  let parts := range.splitOn ':'
  let start := trim_chars (parts.headD [])
  let stop := trim_chars (parts[1]?.getD (parts.headD []))
  match parse_cell_ref start, parse_cell_ref stop with
  | some (start_row, start_col), some (end_row, end_col) =>
    some
      { start_row := min start_row end_row
        end_row := max start_row end_row
        start_col := min start_col end_col
        end_col := max start_col end_col }
  | _, _ => none

/- ### XML scanning (`parse_merge_cells`, `find_sheet_rel_id`,
`find_sheet_target`)

`quick_xml` is abstracted to the stream of start/empty elements of a
document — the only events the source's three scanners act on (text,
comments and end tags fall to `_ => {}` arms).  Element and attribute
names and attribute values are the decoded strings. -/

/-- One start/empty XML element: qualified name and decoded attributes. -/
structure XmlElem where
  name : List Char
  attrs : List (List Char × List Char)
deriving DecidableEq

/-- The `ref` attribute values of the `mergeCell` elements of a sheet
document, in document order — exactly the strings the loop body of
`parse_merge_cells` feeds to `parse_range_ref`. -/
def merge_cell_refs (elems : List XmlElem) : List (List Char) :=
  elems.foldl
    (fun acc e =>
      if "mergeCell".toList.isSuffixOf e.name then
        acc ++ e.attrs.filterMap
          (fun a => if "ref".toList.isSuffixOf a.1 then some a.2 else none)
      else acc)
    []

/-- `parse_merge_cells`: collect every `mergeCell` `ref` value and keep the
ones that parse; an unparsable reference is dropped, never an error. -/
def parse_merge_cells (elems : List XmlElem) : List MergeRange :=
  (merge_cell_refs elems).filterMap (fun v => parse_range_ref (trim_chars v))

/-- Attribute scan of `find_sheet_rel_id` for one element: the last
attribute whose key ends in the given suffix wins (the source's for-loop
overwrites earlier matches). -/
def last_attr_with_suffix (attrs : List (List Char × List Char))
    (suffix : List Char) : Option (List Char) :=
  attrs.foldl (fun acc a => if suffix.isSuffixOf a.1 then some a.2 else acc) none

/-- Per-element body of `find_sheet_rel_id`: a `…sheet` element whose
`…name` attribute equals the sheet name yields its `…:id` attribute. -/
def scan_sheet_elem (sheet_name : List Char) (e : XmlElem) :
    Option (List Char) :=
  if ¬ "sheet".toList.isSuffixOf e.name then none
  else
    match last_attr_with_suffix e.attrs "name".toList,
        last_attr_with_suffix e.attrs ":id".toList with
    | some n, some rid => if n = sheet_name then some rid else none
    | _, _ => none

/-- `find_sheet_rel_id`: first matching sheet declaration wins; no match is
the `RelationshipNotFound` error. -/
def find_sheet_rel_id (elems : List XmlElem) (sheet_name : List Char) :
    Except String (List Char) :=
  match elems.findSome? (scan_sheet_elem sheet_name) with
  | some rid => Except.ok rid
  | none => Except.error "无法在 workbook.xml 中找到工作表的关系信息"

/-- Per-element body of `find_sheet_target`: a `…Relationship` element
whose `…Id` equals the relationship id yields its `…Target`, if present. -/
def scan_rel_elem (rel_id : List Char) (e : XmlElem) : Option (List Char) :=
  if ¬ "Relationship".toList.isSuffixOf e.name then none
  else
    match last_attr_with_suffix e.attrs "Id".toList,
        last_attr_with_suffix e.attrs "Target".toList with
    | some i, some target => if i = rel_id then some target else none
    | _, _ => none

/-- `find_sheet_target`: resolve a relationship id to its target path. -/
def find_sheet_target (elems : List XmlElem) (rel_id : List Char) :
    Except String (List Char) :=
  match elems.findSome? (scan_rel_elem rel_id) with
  | some target => Except.ok target
  | none => Except.error "无法定位工作表的 XML 路径"

/- ### Merge-range extraction (`extract_merge_ranges`) -/

/-- Model of the source file as seen by `extract_merge_ranges`: the path's
extension (as written, before lowercasing), whether `File::open` and
`ZipArchive::new` succeed, and the archive's entries with their XML content
pre-tokenized. -/
structure SourceFile where
  extension : List Char
  open_ok : Bool
  zip_ok : Bool
  entries : List (List Char × List XmlElem)
deriving DecidableEq

/-- `read_zip_entry`: look up an archive entry by name; a missing entry is
the `ContainerEntryMissing` error. -/
def read_zip_entry (entries : List (List Char × List XmlElem))
    (path : List Char) : Except String (List XmlElem) :=
  match entries.find? (fun e => e.1 = path) with
  | some e => Except.ok e.2
  | none => Except.error "Excel 文件缺少条目"

/-- `extract_merge_ranges`: for a non-`xlsx` extension return the empty
list successfully; otherwise open the archive and chase
`xl/workbook.xml` → `xl/_rels/workbook.xml.rels` → the sheet part, and
parse its `mergeCell` declarations. -/
def extract_merge_ranges (src : SourceFile) (sheet_name : List Char) :
    Except String (List MergeRange) :=
  let extension := src.extension.map to_ascii_lowercase
  if extension ≠ "xlsx".toList then Except.ok []
  else if ¬ src.open_ok then Except.error "无法以 ZIP 方式打开 Excel 文件"
  else if ¬ src.zip_ok then Except.error "无法解压 Excel 文件以读取合并单元信息"
  else do
    let workbook_xml ← read_zip_entry src.entries "xl/workbook.xml".toList
    let rel_id ← find_sheet_rel_id workbook_xml sheet_name
    let rels_xml ← read_zip_entry src.entries "xl/_rels/workbook.xml.rels".toList
    let target ← find_sheet_target rels_xml rel_id
    let full_path := "xl/".toList ++ target.dropWhile (fun c => c = '/')
    let sheet_xml ← read_zip_entry src.entries full_path
    Except.ok (parse_merge_cells sheet_xml)

/- ### Merge remapping (`map_chunk_merges`, `row_in_chunk`,
`map_row_to_chunk`, `get_cell_value`) -/

/-- `row_in_chunk`: header rows are always in-chunk; a data row is in-chunk
when its data index falls in the chunk's half-open window. -/
def row_in_chunk (row header_rows data_start data_end : Nat) : Bool :=
  if row < header_rows then true
  else
    let data_idx := row - header_rows
    decide (data_start ≤ data_idx ∧ data_idx < data_end)

/-- `map_row_to_chunk`: header rows keep their index, data rows are
re-based onto the chunk's data window. -/
def map_row_to_chunk (row header_rows data_start : Nat) : Nat :=
  if row < header_rows then row
  else header_rows + (row - header_rows - data_start)

/-- `get_cell_value`: read a cell from the header grid or the data grid,
defaulting to the empty string when out of bounds. -/
def get_cell_value (header_rows data_rows : List (List String))
    (header_len row col : Nat) : String :=
  if row < header_len then
    ((header_rows[row]?).bind (fun r => r[col]?)).getD ""
  else
    let data_idx := row - header_len
    ((data_rows[data_idx]?).bind (fun r => r[col]?)).getD ""

/-- `u16::MAX`: the largest column index `u16::try_from` accepts. -/
def u16_max : Nat := 65535

/-- `map_chunk_merges`: keep a merge only when both of its rows are
in-chunk and both columns fit in a `u16`; translate the rows, carry the
columns, and cache the top-left cell's text. -/
def map_chunk_merges (merges : List MergeRange) (header_rows : Nat)
    (data_start data_end : Nat) (header_data data_data : List (List String)) :
    List ChunkMerge :=
  merges.filterMap (fun merge =>
    if ¬ (row_in_chunk merge.start_row header_rows data_start data_end ∧
        row_in_chunk merge.end_row header_rows data_start data_end) then
      none
    else if merge.start_col > u16_max then none
    else if merge.end_col > u16_max then none
    else
      some
        { start_row := map_row_to_chunk merge.start_row header_rows data_start
          end_row := map_row_to_chunk merge.end_row header_rows data_start
          start_col := merge.start_col
          end_col := merge.end_col
          value := get_cell_value header_data data_data header_rows
            merge.start_row merge.start_col })

/- ### Chunk planning and the orchestrator (`split_excel_file`,
`write_chunk`, `build_output_path`) -/

/-- `build_output_path`: `<stem>_part<index>.xlsx` next to the source (the
directory component is abstracted away; no claim depends on it). -/
def build_output_path (stem : String) (index : Nat) : String :=
  stem ++ "_part" ++ toString index ++ ".xlsx"

/-- `write_chunk`: the produced workbook holds the header rows first, then
the data rows, then the merges are applied.  `rust_xlsxwriter` I/O errors
are abstracted away (every claim about the writer is conditioned on the
overall call succeeding). -/
def write_chunk (destination : String) (header_rows : List (List String))
    (data_rows : List (List String)) (merges : List ChunkMerge) :
    WrittenFile :=
  { path := destination, cells := header_rows ++ data_rows, merges := merges }

/-- One iteration window of the `while start < data_rows.len()` loop:
the 1-based file index and the half-open data slice it covers. -/
structure Window where
  index : Nat
  start : Nat
  stop : Nat
deriving DecidableEq

/-- The chunking loop of `split_excel_file`, fuel-indexed so that it is
structurally recursive: each pass emits the window
`[start, min (start + cap) len)` and resumes at its end.  With `0 < cap`
every pass advances `start`, so any `fuel ≥ len - start` reaches the
source loop's fixpoint (`chunk_windows` passes `len`). -/
def chunk_loop : Nat → Nat → Nat → Nat → Nat → List Window
  | 0, _, _, _, _ => []
  | fuel + 1, len, cap, start, index =>
    if start < len then
      ⟨index, start, min (start + cap) len⟩ ::
        chunk_loop fuel len cap (min (start + cap) len) (index + 1)
    else []

/-- All windows of the chunking loop for `len` data rows and capacity
`cap`, 1-indexed as in the source. -/
def chunk_windows (len cap : Nat) : List Window :=
  chunk_loop len len cap 0 1

/-- `split_excel_file`, given the ingested grid (rows of normalized text,
as produced by `convert_row` on the first worksheet) and the extracted
merge list.  Returns the `SplitResult` or the first error, paired with the
list of files written — empty whenever an error is returned, since every
validation precedes the first write. -/
def split_excel_file (stem : String) (rows : List (List String))
    (merge_ranges : List MergeRange) (chunk_size header_rows : Nat) :
    Except String SplitResult × List WrittenFile :=
  if chunk_size = 0 then (Except.error "拆分的行数必须大于 0", [])
  else if header_rows = 0 then (Except.error "表头行数必须大于 0", [])
  else if chunk_size ≤ header_rows then (Except.error "拆分行数必须大于表头行数", [])
  else if rows.length < header_rows then
    (Except.error "工作表的行数小于指定的表头行数", [])
  else
    let header := rows.take header_rows
    let data_rows := rows.drop header_rows
    let total_rows := rows.length
    let data_capacity := chunk_size - header_rows
    if data_rows.isEmpty then
      let path := build_output_path stem 1
      let chunk_merges :=
        map_chunk_merges merge_ranges header_rows 0 0 header data_rows
      let written := write_chunk path header [] chunk_merges
      (Except.ok
        { total_rows := total_rows
          header_rows := header_rows
          chunks := [{ file_path := path, total_rows := header_rows, data_rows := 0 }] },
        [written])
    else
      let ws := chunk_windows data_rows.length data_capacity
      let outs := ws.map (fun w =>
        let chunk_data := (data_rows.drop w.start).take (w.stop - w.start)
        let path := build_output_path stem w.index
        let chunk_merges :=
          map_chunk_merges merge_ranges header_rows w.start w.stop header data_rows
        ({ file_path := path
           total_rows := header_rows + chunk_data.length
           data_rows := chunk_data.length : SplitChunk },
         write_chunk path header chunk_data chunk_merges))
      (Except.ok
        { total_rows := total_rows
          header_rows := header_rows
          chunks := outs.map Prod.fst },
        outs.map Prod.snd)

/- ### Spec-side definitions for the merge-remapping refinement (claim C5)

These re-state, in the specification's own words, which merges a chunk
keeps and how a kept merge is translated; the theorems compare them with
`map_chunk_merges` above, which is embedded from the source. -/

/-- Spec wording: a row `r` is in-chunk iff `r < header_rows`, or
`r - header_rows` lies in `[data_start, data_end)`. -/
def spec_row_in_chunk (r header_rows data_start data_end : Nat) : Prop :=
  r < header_rows ∨
    (header_rows ≤ r ∧ data_start ≤ r - header_rows ∧ r - header_rows < data_end)

instance (r header_rows data_start data_end : Nat) :
    Decidable (spec_row_in_chunk r header_rows data_start data_end) := by
  unfold spec_row_in_chunk
  exact inferInstance

/-- Spec wording: a merge is emitted in a chunk iff both its start row and
its end row are in-chunk and both column bounds fit the writer's 16-bit
column index. -/
def spec_merge_kept (m : MergeRange) (header_rows data_start data_end : Nat) :
    Prop :=
  spec_row_in_chunk m.start_row header_rows data_start data_end ∧
  spec_row_in_chunk m.end_row header_rows data_start data_end ∧
  m.start_col ≤ 65535 ∧ m.end_col ≤ 65535

instance (m : MergeRange) (header_rows data_start data_end : Nat) :
    Decidable (spec_merge_kept m header_rows data_start data_end) := by
  unfold spec_merge_kept
  exact inferInstance

/-- Spec wording: header rows are mapped unchanged, data rows are shifted
down by `data_start`. -/
def spec_map_row (r header_rows data_start : Nat) : Nat :=
  if r < header_rows then r else r - data_start

/-- Spec wording: the anchor text is the text of a cell of the source
sheet, empty when out of bounds. -/
def spec_anchor (grid : List (List String)) (r c : Nat) : String :=
  ((grid[r]?).bind (fun row => row[c]?)).getD ""

/-- Spec wording: an emitted merge has its rows translated by
`spec_map_row`, its columns carried through unchanged, and the anchor text
of the source range's top-left cell. -/
def spec_translate (grid : List (List String)) (m : MergeRange)
    (header_rows data_start : Nat) : ChunkMerge :=
  { start_row := spec_map_row m.start_row header_rows data_start
    end_row := spec_map_row m.end_row header_rows data_start
    start_col := m.start_col
    end_col := m.end_col
    value := spec_anchor grid m.start_row m.start_col }

/- ### Concrete example inputs used by the witness theorems -/

/-- A 1-header, 3-data-row sheet. -/
def rows_ex : List (List String) := [["h"], ["a"], ["b"], ["c"]]

/-- The summary `split_excel_file "t" rows_ex [] 2 1` returns. -/
def res_ex : SplitResult :=
  { total_rows := 4
    header_rows := 1
    chunks :=
      [⟨"t_part1.xlsx", 2, 1⟩, ⟨"t_part2.xlsx", 2, 1⟩, ⟨"t_part3.xlsx", 2, 1⟩] }

/-- The files `split_excel_file "t" rows_ex [] 2 1` writes. -/
def writes_ex : List WrittenFile :=
  [⟨"t_part1.xlsx", [["h"], ["a"]], []⟩,
   ⟨"t_part2.xlsx", [["h"], ["b"]], []⟩,
   ⟨"t_part3.xlsx", [["h"], ["c"]], []⟩]

end ExcelHelper

namespace ExcelHelper

/- ### Character-level helper lemmas -/

theorem toNat_ofNat_valid {n : Nat} (h : n < 55296) : (Char.ofNat n).toNat = n := by
  have hv : n.isValidChar := Or.inl h
  rw [Char.ofNat, dif_pos hv]
  rfl

theorem alpha_not_digit {c : Char} (h : is_ascii_alphabetic c = true) :
    is_ascii_digit c = false := by
  simp [is_ascii_alphabetic] at h
  simp [is_ascii_digit]
  omega

theorem toNat_to_ascii_uppercase (c : Char) :
    (to_ascii_uppercase c).toNat =
      if 97 ≤ c.toNat ∧ c.toNat ≤ 122 then c.toNat - 32 else c.toNat := by
  unfold to_ascii_uppercase
  by_cases h : 97 ≤ c.toNat ∧ c.toNat ≤ 122
  · rw [if_pos h, if_pos h, toNat_ofNat_valid (by omega)]
  · rw [if_neg h, if_neg h]

theorem alpha_to_ascii_uppercase (c : Char) :
    is_ascii_alphabetic (to_ascii_uppercase c) = is_ascii_alphabetic c := by
  have h := toNat_to_ascii_uppercase c
  simp only [is_ascii_alphabetic, decide_eq_decide]
  by_cases hc : 97 ≤ c.toNat ∧ c.toNat ≤ 122
  · rw [if_pos hc] at h
    omega
  · rw [if_neg hc] at h
    omega

theorem to_ascii_uppercase_eq_self {c : Char}
    (h : ¬ (97 ≤ c.toNat ∧ c.toNat ≤ 122)) : to_ascii_uppercase c = c := by
  unfold to_ascii_uppercase
  rw [if_neg h]

theorem to_ascii_uppercase_idem (c : Char) :
    to_ascii_uppercase (to_ascii_uppercase c) = to_ascii_uppercase c := by
  have h := toNat_to_ascii_uppercase c
  apply to_ascii_uppercase_eq_self
  by_cases hc : 97 ≤ c.toNat ∧ c.toNat ≤ 122
  · rw [if_pos hc] at h
    omega
  · rw [if_neg hc] at h
    omega

end ExcelHelper

namespace ExcelHelper

theorem column_label_loop_map_upper (l : List Char) :
    ∀ v : Nat, column_label_loop (l.map to_ascii_uppercase) v = column_label_loop l v := by
  induction l with
  | nil => intro v; rfl
  | cons c cs ih =>
    intro v
    simp only [List.map_cons, column_label_loop]
    rw [alpha_to_ascii_uppercase, to_ascii_uppercase_idem]
    by_cases ha : is_ascii_alphabetic c
    · simp only [ha, not_true, if_neg, ite_false]
      by_cases hu : (to_ascii_uppercase c).toNat % 256 < 65
      · rw [if_pos hu, if_pos hu]
      · rw [if_neg hu, if_neg hu, ih]
    · simp [ha]

/-- Claim C10: column-label decoding is case-insensitive: decoding a label
and decoding its ASCII-uppercased form give the same result, and in
particular `aa` decodes to 26 exactly like `AA`. -/
theorem column_label_case_insensitive :
    (∀ label : List Char,
      column_label_to_index (label.map to_ascii_uppercase) =
        column_label_to_index label) ∧
    column_label_to_index "aa".toList = some 26 ∧
    column_label_to_index "AA".toList = some 26 := by
  refine ⟨fun label => ?_, by decide, by decide⟩
  unfold column_label_to_index
  rw [column_label_loop_map_upper]

end ExcelHelper

namespace ExcelHelper

theorem parse_cell_loop_acc (cs : List Char) :
    ∀ col row col2 row2, parse_cell_loop cs col row = some (col2, row2) →
      col2 = col ++ cs.filter is_ascii_alphabetic ∧
      row2 = row ++ cs.filter is_ascii_digit := by
  induction cs with
  | nil =>
    intro col row col2 row2 h
    simp [parse_cell_loop] at h
    simp [h.1, h.2]
  | cons c cs ih =>
    intro col row col2 row2 h
    simp only [parse_cell_loop] at h
    by_cases ha : is_ascii_alphabetic c
    · rw [if_pos ha] at h
      by_cases hr : row ≠ []
      · rw [if_pos hr] at h
        exact absurd h (by simp)
      · rw [if_neg hr] at h
        have := ih (col ++ [c]) row col2 row2 h
        simp only [List.filter_cons, ha, alpha_not_digit ha] at *
        simp [this.1, this.2]
    · rw [if_neg ha] at h
      by_cases hd : is_ascii_digit c
      · rw [if_pos hd] at h
        have := ih col (row ++ [c]) col2 row2 h
        simp only [List.filter_cons, ha, hd] at *
        simp [this.1, this.2]
      · rw [if_neg hd] at h
        have := ih col row col2 row2 h
        simp only [List.filter_cons, ha, hd] at *
        simp [this.1, this.2]

theorem parse_cell_loop_alpha_after (cs : List Char) :
    ∀ col row, (∃ a ∈ cs, is_ascii_alphabetic a = true) → row ≠ [] →
      parse_cell_loop cs col row = none := by
  induction cs with
  | nil =>
    intro col row h _
    simp at h
  | cons c cs ih =>
    intro col row h hr
    obtain ⟨a, ha, halpha⟩ := h
    simp only [parse_cell_loop]
    by_cases hac : is_ascii_alphabetic c
    · rw [if_pos hac, if_pos hr]
    · rw [if_neg hac]
      have hacs : a ∈ cs := by
        rcases List.mem_cons.mp ha with h1 | h1
        · exact absurd halpha (h1.symm ▸ hac)
        · exact h1
      by_cases hd : is_ascii_digit c
      · rw [if_pos hd]
        exact ih col (row ++ [c]) ⟨a, hacs, halpha⟩ (by simp)
      · rw [if_neg hd]
        exact ih col row ⟨a, hacs, halpha⟩ hr

theorem digit_not_alpha {c : Char} (h : is_ascii_digit c = true) :
    is_ascii_alphabetic c = false := by
  simp [is_ascii_digit] at h
  simp [is_ascii_alphabetic]
  omega

theorem parse_cell_loop_digit_before_alpha (d a : Char)
    (hd : is_ascii_digit d = true) (ha : is_ascii_alphabetic a = true)
    (xs ys zs : List Char) :
    ∀ col row, parse_cell_loop (xs ++ d :: ys ++ a :: zs) col row = none := by
  induction xs with
  | nil =>
    intro col row
    have hda : ¬ is_ascii_alphabetic d = true := by simp [digit_not_alpha hd]
    simp only [List.nil_append, parse_cell_loop, if_neg hda, if_pos hd]
    exact parse_cell_loop_alpha_after _ _ _ ⟨a, by simp, ha⟩ (by simp)
  | cons x xs ih =>
    intro col row
    simp only [List.cons_append, parse_cell_loop]
    by_cases hax : is_ascii_alphabetic x
    · rw [if_pos hax]
      by_cases hr : row ≠ []
      · rw [if_pos hr]
      · rw [if_neg hr]
        exact ih _ _
    · rw [if_neg hax]
      by_cases hdx : is_ascii_digit x
      · rw [if_pos hdx]
        exact ih _ _
      · rw [if_neg hdx]
        exact ih _ _

end ExcelHelper

namespace ExcelHelper

/-- Claim C8: column-label decoding is bijective base-26 with `A` = 1
shifted to zero-based indices — `A`, `Z`, `AA`, `AZ`, `BA` decode to 0,
25, 26, 51, 52 — and in a decoded cell reference the row index equals the
parsed trailing integer minus 1. -/
theorem column_decoding_bijective_base26 :
    column_label_to_index "A".toList = some 0 ∧
    column_label_to_index "Z".toList = some 25 ∧
    column_label_to_index "AA".toList = some 26 ∧
    column_label_to_index "AZ".toList = some 51 ∧
    column_label_to_index "BA".toList = some 52 ∧
    (∀ (cell : List Char) (r c : Nat), parse_cell_ref cell = some (r, c) →
      r + 1 = digits_to_nat (cell.filter is_ascii_digit)) := by
  refine ⟨by decide, by decide, by decide, by decide, by decide, ?_⟩
  intro cell r c h
  unfold parse_cell_ref at h
  by_cases hc : cell = []
  · rw [if_pos hc] at h
    exact absurd h (by simp)
  · rw [if_neg hc] at h
    cases hl : parse_cell_loop cell [] [] with
    | none =>
      rw [hl] at h
      exact absurd h (by simp)
    | some pr =>
      obtain ⟨col_part, row_part⟩ := pr
      rw [hl] at h
      simp only at h
      have hacc := parse_cell_loop_acc cell [] [] col_part row_part hl
      by_cases hg : col_part = [] ∨ row_part = []
      · rw [if_pos hg] at h
        exact absurd h (by simp)
      · rw [if_neg hg] at h
        cases hcol : column_label_to_index col_part with
        | none =>
          rw [hcol] at h
          exact absurd h (by simp)
        | some col =>
          rw [hcol] at h
          simp only at h
          by_cases hz : digits_to_nat row_part = 0
          · rw [if_pos hz] at h
            exact absurd h (by simp)
          · rw [if_neg hz] at h
            simp only [Option.some.injEq, Prod.mk.injEq] at h
            have hrow : row_part = cell.filter is_ascii_digit := by
              simpa using hacc.2
            rw [← hrow]
            omega

theorem column_decoding_bijective_base26_witness :
    1 + 1 = digits_to_nat ("B2".toList.filter is_ascii_digit) :=
  column_decoding_bijective_base26.2.2.2.2.2 "B2".toList 1 1 (by decide)

/-- Claim C6 counterexample: the endpoint `$A$1` contains characters
outside a leading alphabetic run followed by a trailing numeric run, yet
`parse_cell_ref` accepts it (skipping the `$`s) and `parse_range_ref`
yields a range. -/
theorem parse_nonalnum_skipped_counterexample :
    parse_range_ref "$A$1".toList = some ⟨0, 0, 0, 0⟩ ∧
    parse_cell_ref "$A$1".toList = some (0, 0) := by
  decide

/-- Claim C6 (amended): an endpoint yields no parse exactly in these
cases — it has no ASCII alphabetic character, it has no ASCII digit, or
an ASCII alphabetic character occurs after an ASCII digit; characters
that are neither are skipped.  A failed endpoint discards the whole
range, and extraction still returns every remaining well-formed range —
an unparsable reference never makes extraction fail. -/
theorem parse_robustness :
    (∀ cell : List Char,
      (cell.filter is_ascii_alphabetic = [] ∨ cell.filter is_ascii_digit = [] ∨
        ∃ xs ys zs d a, cell = xs ++ d :: ys ++ a :: zs ∧
          is_ascii_digit d = true ∧ is_ascii_alphabetic a = true) →
      parse_cell_ref cell = none) ∧
    (∀ range : List Char,
      (parse_cell_ref (trim_chars ((range.splitOn ':').headD [])) = none ∨
        parse_cell_ref
          (trim_chars (((range.splitOn ':')[1]?).getD
            ((range.splitOn ':').headD []))) = none) →
      parse_range_ref range = none) ∧
    (∀ (elems : List XmlElem) (r : List Char) (mr : MergeRange),
      r ∈ merge_cell_refs elems → parse_range_ref (trim_chars r) = some mr →
      mr ∈ parse_merge_cells elems) := by
  refine ⟨?_, ?_, ?_⟩
  · intro cell hbad
    rcases hbad with hna | hnd | ⟨xs, ys, zs, d, a, hcell, hd, ha⟩
    · unfold parse_cell_ref
      by_cases hc : cell = []
      · rw [if_pos hc]
      · rw [if_neg hc]
        cases hl : parse_cell_loop cell [] [] with
        | none => rfl
        | some pr =>
          obtain ⟨col_part, row_part⟩ := pr
          have hacc := parse_cell_loop_acc cell [] [] col_part row_part hl
          have : col_part = [] := by
            simp [hacc.1, hna]
          simp [this]
    · unfold parse_cell_ref
      by_cases hc : cell = []
      · rw [if_pos hc]
      · rw [if_neg hc]
        cases hl : parse_cell_loop cell [] [] with
        | none => rfl
        | some pr =>
          obtain ⟨col_part, row_part⟩ := pr
          have hacc := parse_cell_loop_acc cell [] [] col_part row_part hl
          have : row_part = [] := by
            simp [hacc.2, hnd]
          simp [this]
    · subst hcell
      unfold parse_cell_ref
      rw [if_neg (by simp), parse_cell_loop_digit_before_alpha d a hd ha xs ys zs [] []]
  · intro range hend
    simp only [parse_range_ref]
    rcases hend with h1 | h1
    · rw [h1]
    · rw [h1]
      cases parse_cell_ref (trim_chars ((range.splitOn ':').headD [])) <;> rfl
  · intro elems r mr hr hparse
    exact List.mem_filterMap.mpr ⟨r, hr, hparse⟩

theorem parse_robustness_witness : parse_cell_ref "ABC".toList = none :=
  parse_robustness.1 "ABC".toList (Or.inr (Or.inl (by decide)))

/-- Claim C9: for a source file whose (lowercased) extension is not
`xlsx` — in particular every file the reader handles as the legacy binary
`xls` format — `extract_merge_ranges` succeeds with an empty merge list. -/
theorem extract_legacy_empty (src : SourceFile) (sheet_name : List Char)
    (h : src.extension.map to_ascii_lowercase ≠ "xlsx".toList) :
    extract_merge_ranges src sheet_name = Except.ok [] := by
  simp only [extract_merge_ranges]
  rw [if_pos h]

theorem extract_legacy_empty_witness :
    extract_merge_ranges ⟨"xls".toList, true, true, []⟩ "Sheet1".toList =
      Except.ok [] :=
  extract_legacy_empty _ _ (by decide)

end ExcelHelper

namespace ExcelHelper

/- ### Chunking-loop lemmas -/

theorem chunk_loop_ge_len {fuel len cap start index : Nat} (h : len ≤ start) :
    chunk_loop fuel len cap start index = [] := by
  cases fuel with
  | zero => rfl
  | succ n => simp [chunk_loop, Nat.not_lt.mpr h]

theorem chunk_loop_mem_bounds {cap : Nat} (hcap : 0 < cap) :
    ∀ (fuel len start index : Nat) (w : Window),
      w ∈ chunk_loop fuel len cap start index →
      start ≤ w.start ∧ w.start < w.stop ∧ w.stop ≤ len := by
  intro fuel
  induction fuel with
  | zero =>
    intro len start index w hw
    simp [chunk_loop] at hw
  | succ n ih =>
    intro len start index w hw
    rw [chunk_loop] at hw
    by_cases hs : start < len
    · rw [if_pos hs] at hw
      rcases List.mem_cons.mp hw with h1 | h1
      · subst h1
        refine ⟨Nat.le_refl _, ?_, ?_⟩
        · simp
          omega
        · simp
      · have := ih len (min (start + cap) len) (index + 1) w h1
        omega
    · rw [if_neg hs] at hw
      simp at hw

theorem chunk_loop_flatten {α : Type} (data : List α) (cap : Nat)
    (hcap : 0 < cap) :
    ∀ fuel start index, data.length - start ≤ fuel →
      ((chunk_loop fuel data.length cap start index).map
        (fun w => (data.drop w.start).take (w.stop - w.start))).flatten =
        data.drop start := by
  intro fuel
  induction fuel with
  | zero =>
    intro start index hf
    have hls : data.length ≤ start := by omega
    simp [chunk_loop, List.drop_eq_nil_of_le hls]
  | succ n ih =>
    intro start index hf
    rw [chunk_loop]
    by_cases hs : start < data.length
    · rw [if_pos hs]
      simp only [List.map_cons, List.flatten_cons]
      rw [ih (min (start + cap) data.length) (index + 1) (by omega)]
      have hdd : data.drop (min (start + cap) data.length) =
          (data.drop start).drop (min (start + cap) data.length - start) := by
        rw [List.drop_drop]
        congr 1
        omega
      rw [hdd, List.take_append_drop]
    · rw [if_neg hs]
      simp [List.drop_eq_nil_of_le (by omega : data.length ≤ start)]

theorem chunk_loop_sizes {cap : Nat} (hcap : 0 < cap) :
    ∀ (fuel len start index : Nat), start < len → len - start ≤ fuel →
      chunk_loop fuel len cap start index ≠ [] ∧
      (∀ w ∈ (chunk_loop fuel len cap start index).dropLast,
        w.stop - w.start = cap) ∧
      (∀ wl, (chunk_loop fuel len cap start index).getLast? = some wl →
        0 < wl.stop - wl.start ∧ wl.stop - wl.start ≤ cap) := by
  intro fuel
  induction fuel with
  | zero =>
    intro len start index hs hf
    omega
  | succ n ih =>
    intro len start index hs hf
    rw [chunk_loop, if_pos hs]
    by_cases he : min (start + cap) len < len
    · have hrest := ih len (min (start + cap) len) (index + 1) he (by omega)
      obtain ⟨hne, hdl, hlast⟩ := hrest
      refine ⟨by simp, ?_, ?_⟩
      · intro w hw
        rw [List.dropLast_cons_of_ne_nil hne] at hw
        rcases List.mem_cons.mp hw with h1 | h1
        · subst h1
          simp
          omega
        · exact hdl w h1
      · intro wl hwl
        rcases List.exists_cons_of_ne_nil hne with ⟨r, rs, hr⟩
        rw [hr] at hwl
        rw [List.getLast?_cons_cons] at hwl
        rw [← hr] at hwl
        exact hlast wl hwl
    · have hrest : chunk_loop n len cap (min (start + cap) len) (index + 1) = [] :=
        chunk_loop_ge_len (by omega)
      rw [hrest]
      refine ⟨by simp, by simp, ?_⟩
      intro wl hwl
      simp only [List.getLast?_singleton, Option.some.injEq] at hwl
      subst hwl
      simp
      omega

theorem chunk_loop_unique {cap : Nat} (hcap : 0 < cap) :
    ∀ (fuel len start index : Nat) (w w2 : Window) (x : Nat),
      w ∈ chunk_loop fuel len cap start index →
      w2 ∈ chunk_loop fuel len cap start index →
      w.start ≤ x → x < w.stop → w2.start ≤ x → x < w2.stop → w = w2 := by
  intro fuel
  induction fuel with
  | zero =>
    intro len start index w w2 x hw
    simp [chunk_loop] at hw
  | succ n ih =>
    intro len start index w w2 x hw hw2 hx1 hx2 hx3 hx4
    rw [chunk_loop] at hw hw2
    by_cases hs : start < len
    · rw [if_pos hs] at hw hw2
      rcases List.mem_cons.mp hw with h1 | h1 <;>
        rcases List.mem_cons.mp hw2 with h2 | h2
      · rw [h1, h2]
      · subst h1
        have := chunk_loop_mem_bounds hcap n len _ _ w2 h2
        simp at hx1 hx2
        omega
      · subst h2
        have := chunk_loop_mem_bounds hcap n len _ _ w h1
        simp at hx3 hx4
        omega
      · exact ih len _ _ w w2 x h1 h2 hx1 hx2 hx3 hx4
    · rw [if_neg hs] at hw
      simp at hw

end ExcelHelper

namespace ExcelHelper

/- ### Inversion of a successful `split_excel_file` call -/

theorem split_ok_inv {stem : String} {rows : List (List String)}
    {merge_ranges : List MergeRange} {chunk_size header_rows : Nat}
    {res : SplitResult} {writes : List WrittenFile}
    (hok : split_excel_file stem rows merge_ranges chunk_size header_rows =
      (Except.ok res, writes)) :
    0 < header_rows ∧ header_rows < chunk_size ∧ header_rows ≤ rows.length ∧
    ((rows.drop header_rows = [] ∧
        res = ⟨rows.length, header_rows,
          [⟨build_output_path stem 1, header_rows, 0⟩]⟩ ∧
        writes = [write_chunk (build_output_path stem 1)
          (rows.take header_rows) []
          (map_chunk_merges merge_ranges header_rows 0 0
            (rows.take header_rows) (rows.drop header_rows))]) ∨
      (rows.drop header_rows ≠ [] ∧
        res = ⟨rows.length, header_rows,
          (chunk_windows (rows.drop header_rows).length
              (chunk_size - header_rows)).map (fun w =>
            ⟨build_output_path stem w.index,
             header_rows +
               (((rows.drop header_rows).drop w.start).take
                 (w.stop - w.start)).length,
             (((rows.drop header_rows).drop w.start).take
               (w.stop - w.start)).length⟩)⟩ ∧
        writes = (chunk_windows (rows.drop header_rows).length
            (chunk_size - header_rows)).map (fun w =>
          write_chunk (build_output_path stem w.index) (rows.take header_rows)
            (((rows.drop header_rows).drop w.start).take (w.stop - w.start))
            (map_chunk_merges merge_ranges header_rows w.start w.stop
              (rows.take header_rows) (rows.drop header_rows))))) := by
  simp only [split_excel_file] at hok
  split_ifs at hok with h1 h2 h3 h4 h5
  · exact absurd hok (by simp)
  · exact absurd hok (by simp)
  · exact absurd hok (by simp)
  · exact absurd hok (by simp)
  · simp only [Prod.mk.injEq, Except.ok.injEq] at hok
    refine ⟨by omega, by omega, by omega, Or.inl ⟨List.isEmpty_iff.mp h5, ?_, ?_⟩⟩
    · exact hok.1.symm
    · exact hok.2.symm
  · simp only [Prod.mk.injEq, Except.ok.injEq] at hok
    refine ⟨by omega, by omega, by omega,
      Or.inr ⟨fun hcon => h5 (List.isEmpty_iff.mpr hcon), ?_, ?_⟩⟩
    · rw [← hok.1, List.map_map]
      rfl
    · rw [← hok.2, List.map_map]
      rfl

end ExcelHelper

namespace ExcelHelper

/-- Claim C1: for every successful invocation, concatenating the data-row
slices of all emitted chunks in emission order equals exactly the
source-sheet rows after the first `header_rows` rows, in original order,
with no row duplicated and none lost. -/
theorem split_row_conservation (stem : String) (rows : List (List String))
    (merge_ranges : List MergeRange) (chunk_size header_rows : Nat)
    (res : SplitResult) (writes : List WrittenFile)
    (hok : split_excel_file stem rows merge_ranges chunk_size header_rows =
      (Except.ok res, writes)) :
    (writes.map (fun w => w.cells.drop header_rows)).flatten =
      rows.drop header_rows := by
  obtain ⟨h0, hlt, hle, hcase⟩ := split_ok_inv hok
  have hhl : (rows.take header_rows).length = header_rows := by
    rw [List.length_take]
    omega
  rcases hcase with ⟨hde, _, hw⟩ | ⟨hde, _, hw⟩
  · subst hw
    simp only [write_chunk, List.map_cons, List.map_nil, List.flatten_cons,
      List.flatten_nil, List.append_nil, hde]
    exact List.drop_eq_nil_of_le (by omega)
  · subst hw
    rw [List.map_map]
    have hfun : ((fun w : WrittenFile => w.cells.drop header_rows) ∘
        (fun w : Window =>
          write_chunk (build_output_path stem w.index) (rows.take header_rows)
            (((rows.drop header_rows).drop w.start).take (w.stop - w.start))
            (map_chunk_merges merge_ranges header_rows w.start w.stop
              (rows.take header_rows) (rows.drop header_rows)))) =
        (fun w : Window =>
          ((rows.drop header_rows).drop w.start).take (w.stop - w.start)) := by
      funext w
      simp only [Function.comp, write_chunk]
      exact List.drop_left' hhl
    rw [hfun]
    have := chunk_loop_flatten (rows.drop header_rows)
      (chunk_size - header_rows) (by omega) (rows.drop header_rows).length 0 1
      (by omega)
    simpa [chunk_windows] using this

theorem split_row_conservation_witness :
    (writes_ex.map (fun w => w.cells.drop 1)).flatten = rows_ex.drop 1 :=
  split_row_conservation "t" rows_ex [] 2 1 res_ex writes_ex (by rfl)

/-- Claim C2: in a successful invocation with at least one data row, every
chunk except possibly the last carries exactly `chunk_size - header_rows`
data rows and the last carries between 1 and that many; every chunk's
`total_rows` is `header_rows + data_rows`; with zero data rows exactly one
chunk is produced with `data_rows = 0` and `total_rows = header_rows`. -/
theorem split_chunk_sizing (stem : String) (rows : List (List String))
    (merge_ranges : List MergeRange) (chunk_size header_rows : Nat)
    (res : SplitResult) (writes : List WrittenFile)
    (hok : split_excel_file stem rows merge_ranges chunk_size header_rows =
      (Except.ok res, writes)) :
    (∀ c ∈ res.chunks, c.total_rows = header_rows + c.data_rows) ∧
    (rows.length = header_rows →
      ∃ c, res.chunks = [c] ∧ c.data_rows = 0 ∧ c.total_rows = header_rows) ∧
    (header_rows < rows.length →
      (∀ c ∈ res.chunks.dropLast, c.data_rows = chunk_size - header_rows) ∧
      (∃ c, res.chunks.getLast? = some c ∧ 0 < c.data_rows ∧
        c.data_rows ≤ chunk_size - header_rows)) := by
  obtain ⟨h0, hlt, hle, hcase⟩ := split_ok_inv hok
  have hdlen : (rows.drop header_rows).length = rows.length - header_rows :=
    List.length_drop header_rows rows
  rcases hcase with ⟨hde, hres, _⟩ | ⟨hde, hres, _⟩
  · have hlen : rows.length = header_rows := by
      have := congrArg List.length hde
      simp only [List.length_nil] at this
      omega
    subst hres
    refine ⟨?_, ?_, ?_⟩
    · intro c hc
      simp only [List.mem_singleton] at hc
      subst hc
      rfl
    · intro _
      exact ⟨_, rfl, rfl, rfl⟩
    · intro hcon
      omega
  · have hlen : header_rows < rows.length := by
      rcases Nat.lt_or_ge header_rows rows.length with h | h
      · exact h
      · exact absurd (List.drop_eq_nil_of_le h) hde
    have hdpos : 0 < (rows.drop header_rows).length := by
      rw [hdlen]
      omega
    have hcap : 0 < chunk_size - header_rows := by omega
    have hsizes := chunk_loop_sizes hcap (rows.drop header_rows).length
      (rows.drop header_rows).length 0 1 hdpos (by omega)
    have hslice : ∀ w : Window, w ∈ chunk_windows (rows.drop header_rows).length
        (chunk_size - header_rows) →
        (((rows.drop header_rows).drop w.start).take (w.stop - w.start)).length =
          w.stop - w.start := by
      intro w hw
      have hb := chunk_loop_mem_bounds hcap (rows.drop header_rows).length
        (rows.drop header_rows).length 0 1 w hw
      rw [List.length_take, List.length_drop]
      omega
    subst hres
    refine ⟨?_, ?_, ?_⟩
    · intro c hc
      simp only [List.mem_map] at hc
      obtain ⟨w, _, hwc⟩ := hc
      subst hwc
      rfl
    · intro hcon
      omega
    · intro _
      constructor
      · intro c hc
        rw [← List.map_dropLast] at hc
        simp only [List.mem_map] at hc
        obtain ⟨w, hw, hwc⟩ := hc
        subst hwc
        have hmem : w ∈ chunk_windows (rows.drop header_rows).length
            (chunk_size - header_rows) :=
          List.dropLast_subset _ hw
        simp only
        rw [hslice w hmem]
        exact hsizes.2.1 w hw
      · cases hg : (chunk_windows (rows.drop header_rows).length
            (chunk_size - header_rows)).getLast? with
        | none =>
          exact absurd (List.getLast?_eq_none_iff.mp hg) hsizes.1
        | some wl =>
          have hmem := List.mem_of_getLast?_eq_some hg
          have hsz := hsizes.2.2 wl hg
          refine ⟨⟨build_output_path stem wl.index,
            header_rows + (((rows.drop header_rows).drop wl.start).take
              (wl.stop - wl.start)).length,
            (((rows.drop header_rows).drop wl.start).take
              (wl.stop - wl.start)).length⟩, ?_, ?_, ?_⟩
          · rw [List.getLast?_map, hg]
            rfl
          · show 0 < (((rows.drop header_rows).drop wl.start).take
              (wl.stop - wl.start)).length
            rw [hslice wl hmem]
            omega
          · show (((rows.drop header_rows).drop wl.start).take
              (wl.stop - wl.start)).length ≤ chunk_size - header_rows
            rw [hslice wl hmem]
            omega

theorem split_chunk_sizing_witness :
    ∃ c, res_ex.chunks.getLast? = some c ∧ 0 < c.data_rows ∧
      c.data_rows ≤ 2 - 1 :=
  ((split_chunk_sizing "t" rows_ex [] 2 1 res_ex writes_ex (by rfl)).2.2
    (by decide)).2

/-- Claim C3: in a successful invocation, every emitted chunk's first
`header_rows` rows are exactly the source sheet's first `header_rows`
rows, cell for cell, and they are written before any of the chunk's data
rows. -/
theorem split_header_replication (stem : String) (rows : List (List String))
    (merge_ranges : List MergeRange) (chunk_size header_rows : Nat)
    (res : SplitResult) (writes : List WrittenFile)
    (hok : split_excel_file stem rows merge_ranges chunk_size header_rows =
      (Except.ok res, writes)) :
    ∀ w ∈ writes, w.cells.take header_rows = rows.take header_rows ∧
      w.cells = rows.take header_rows ++ w.cells.drop header_rows := by
  obtain ⟨h0, hlt, hle, hcase⟩ := split_ok_inv hok
  have hhl : (rows.take header_rows).length = header_rows := by
    rw [List.length_take]
    omega
  rcases hcase with ⟨_, _, hw⟩ | ⟨_, _, hw⟩
  · subst hw
    intro w hw
    simp only [List.mem_singleton] at hw
    subst hw
    simp only [write_chunk]
    constructor
    · exact List.take_left' hhl
    · rw [List.drop_left' hhl]
  · subst hw
    intro w hw
    simp only [List.mem_map] at hw
    obtain ⟨win, _, hwc⟩ := hw
    subst hwc
    simp only [write_chunk]
    constructor
    · exact List.take_left' hhl
    · rw [List.drop_left' hhl]

theorem split_header_replication_witness :
    (⟨"t_part1.xlsx", [["h"], ["a"]], []⟩ : WrittenFile).cells.take 1 =
      rows_ex.take 1 ∧
    (⟨"t_part1.xlsx", [["h"], ["a"]], []⟩ : WrittenFile).cells =
      rows_ex.take 1 ++
        (⟨"t_part1.xlsx", [["h"], ["a"]], []⟩ : WrittenFile).cells.drop 1 :=
  split_header_replication "t" rows_ex [] 2 1 res_ex writes_ex (by rfl)
    ⟨"t_part1.xlsx", [["h"], ["a"]], []⟩ (by decide)

/-- Claim C4: whenever `chunk_size = 0`, `header_rows = 0`,
`chunk_size ≤ header_rows`, or the sheet's row count is below
`header_rows`, `split_excel_file` returns an error and writes no output
file. -/
theorem split_parameter_validation (stem : String) (rows : List (List String))
    (merge_ranges : List MergeRange) (chunk_size header_rows : Nat)
    (h : chunk_size = 0 ∨ header_rows = 0 ∨ chunk_size ≤ header_rows ∨
      rows.length < header_rows) :
    ∃ msg, split_excel_file stem rows merge_ranges chunk_size header_rows =
      (Except.error msg, []) := by
  simp only [split_excel_file]
  split_ifs with h1 h2 h3 h4 h5
  · exact ⟨_, rfl⟩
  · exact ⟨_, rfl⟩
  · exact ⟨_, rfl⟩
  · exact ⟨_, rfl⟩
  · exfalso
    rcases h with h | h | h | h
    all_goals omega
  · exfalso
    rcases h with h | h | h | h
    all_goals omega

theorem split_parameter_validation_witness :
    ∃ msg, split_excel_file "t" rows_ex [] 1 1 = (Except.error msg, []) :=
  split_parameter_validation "t" rows_ex [] 1 1 (Or.inr (Or.inr (Or.inl (by decide))))

end ExcelHelper

namespace ExcelHelper

/- ### Merge-remapping lemmas -/

theorem row_in_chunk_iff (r h s e : Nat) :
    row_in_chunk r h s e = true ↔ spec_row_in_chunk r h s e := by
  unfold row_in_chunk spec_row_in_chunk
  by_cases hr : r < h
  · simp [hr]
  · simp [hr]
    omega

theorem get_cell_value_take_drop (grid : List (List String)) (h r c : Nat) :
    get_cell_value (grid.take h) (grid.drop h) h r c = spec_anchor grid r c := by
  unfold get_cell_value spec_anchor
  by_cases hr : r < h
  · rw [if_pos hr]
    simp [List.getElem?_take, hr]
  · rw [if_neg hr]
    simp only [List.getElem?_drop]
    have : h + (r - h) = r := by omega
    rw [this]

theorem map_row_eq {r h s e : Nat} (hin : spec_row_in_chunk r h s e) :
    map_row_to_chunk r h s = spec_map_row r h s := by
  unfold spec_row_in_chunk at hin
  unfold map_row_to_chunk spec_map_row
  by_cases hr : r < h
  · rw [if_pos hr, if_pos hr]
  · rw [if_neg hr, if_neg hr]
    omega

theorem map_chunk_merges_eq_spec (grid : List (List String)) (h s e : Nat)
    (merges : List MergeRange) :
    map_chunk_merges merges h s e (grid.take h) (grid.drop h) =
      (merges.filter (fun m => decide (spec_merge_kept m h s e))).map
        (fun m => spec_translate grid m h s) := by
  induction merges with
  | nil => rfl
  | cons m ms ih =>
    unfold map_chunk_merges at ih ⊢
    rw [List.filterMap_cons, List.filter_cons]
    by_cases hk : spec_merge_kept m h s e
    · obtain ⟨hk1, hk2, hk3, hk4⟩ := hk
      have hcond : row_in_chunk m.start_row h s e = true ∧
          row_in_chunk m.end_row h s e = true :=
        ⟨(row_in_chunk_iff _ _ _ _).mpr hk1, (row_in_chunk_iff _ _ _ _).mpr hk2⟩
      rw [if_neg (not_not_intro hcond),
        if_neg (by unfold u16_max; omega : ¬ m.start_col > u16_max),
        if_neg (by unfold u16_max; omega : ¬ m.end_col > u16_max)]
      rw [if_pos (by exact decide_eq_true ⟨hk1, hk2, hk3, hk4⟩)]
      rw [List.map_cons, ih]
      unfold spec_translate
      rw [map_row_eq hk1, map_row_eq hk2, get_cell_value_take_drop]
    · rw [if_neg (by simp [hk] : ¬ decide (spec_merge_kept m h s e) = true)]
      by_cases hrows : row_in_chunk m.start_row h s e = true ∧
          row_in_chunk m.end_row h s e = true
      · have hcols : m.start_col > u16_max ∨ m.end_col > u16_max := by
          by_contra hc
          push_neg at hc
          exact hk ⟨(row_in_chunk_iff _ _ _ _).mp hrows.1,
            (row_in_chunk_iff _ _ _ _).mp hrows.2,
            by unfold u16_max at hc; omega, by unfold u16_max at hc; omega⟩
        rw [if_neg (not_not_intro hrows)]
        by_cases hc1 : m.start_col > u16_max
        · rw [if_pos hc1]
          exact ih
        · rw [if_neg hc1, if_pos (by omega : m.end_col > u16_max)]
          exact ih
      · rw [if_pos hrows]
        exact ih

theorem straddling_merge_never_kept (len cap h : Nat) (m : MergeRange)
    (w1 w2 : Window) (hcap : 0 < cap)
    (hw1 : w1 ∈ chunk_windows len cap) (hw2 : w2 ∈ chunk_windows len cap)
    (hne : w1 ≠ w2)
    (hs1 : h ≤ m.start_row) (hs2 : w1.start ≤ m.start_row - h)
    (hs3 : m.start_row - h < w1.stop)
    (he1 : h ≤ m.end_row) (he2 : w2.start ≤ m.end_row - h)
    (he3 : m.end_row - h < w2.stop) :
    ∀ w ∈ chunk_windows len cap, ¬ spec_merge_kept m h w.start w.stop := by
  intro w hw hk
  obtain ⟨hkstart, hkend, _, _⟩ := hk
  unfold chunk_windows at hw hw1 hw2
  have hws : w = w1 := by
    rcases hkstart with hlt | ⟨hge, hs, he⟩
    · omega
    · exact chunk_loop_unique hcap len len 0 1 w w1 (m.start_row - h)
        hw hw1 hs he hs2 hs3
  have hwe : w = w2 := by
    rcases hkend with hlt | ⟨hge, hs, he⟩
    · omega
    · exact chunk_loop_unique hcap len len 0 1 w w2 (m.end_row - h)
        hw hw2 hs he he2 he3
  exact hne (hws.symm.trans hwe)

/-- Claim C5: a merge is emitted in a chunk iff both its rows are in-chunk
(header row, or data index inside the chunk's window) and both columns fit
the writer's 16-bit column index; an emitted merge keeps header rows
unchanged, shifts data rows down by `data_start`, carries columns through,
and caches the anchor text of the source range's top-left cell; a merge
whose start and end rows fall in the data windows of two different chunks
is emitted in no chunk. -/
theorem merge_remapping_spec :
    (∀ (merges : List MergeRange) (grid : List (List String)) (h s e : Nat),
      map_chunk_merges merges h s e (grid.take h) (grid.drop h) =
        (merges.filter (fun m => decide (spec_merge_kept m h s e))).map
          (fun m => spec_translate grid m h s)) ∧
    (∀ (len cap h : Nat) (m : MergeRange) (w1 w2 : Window), 0 < cap →
      w1 ∈ chunk_windows len cap → w2 ∈ chunk_windows len cap → w1 ≠ w2 →
      h ≤ m.start_row → w1.start ≤ m.start_row - h → m.start_row - h < w1.stop →
      h ≤ m.end_row → w2.start ≤ m.end_row - h → m.end_row - h < w2.stop →
      ∀ w ∈ chunk_windows len cap, ¬ spec_merge_kept m h w.start w.stop) :=
  ⟨fun merges grid h s e => map_chunk_merges_eq_spec grid h s e merges,
   fun len cap h m w1 w2 hcap hw1 hw2 hne hs1 hs2 hs3 he1 he2 he3 =>
     straddling_merge_never_kept len cap h m w1 w2 hcap hw1 hw2 hne
       hs1 hs2 hs3 he1 he2 he3⟩

theorem merge_remapping_spec_witness :
    ¬ spec_merge_kept ⟨1, 3, 0, 0⟩ 1 0 2 :=
  merge_remapping_spec.2 4 2 1 ⟨1, 3, 0, 0⟩ ⟨1, 0, 2⟩ ⟨2, 2, 4⟩ (by decide)
    (by decide) (by decide) (by decide) (by decide) (by decide) (by decide)
    (by decide) (by decide) (by decide) ⟨1, 0, 2⟩ (by decide)

end ExcelHelper
